import Mathlib

/-!
Verification of the `win-syscolor` crate (`src/lib.rs`).

The development shallowly embeds the crate's code:

* `SysColor` — the packed-color value type (`struct SysColor(u32)`), its
  channel accessors `red`/`green`/`blue`/`raw`, its `Display` rendering
  `#RRGGBB`, and its derived (field-wise) equality and ordering.
* `getOrInit` — the sequential behaviour of `OnceBool::get_or_init`,
  including the `Option<F>`-take/unwrap bookkeeping and the
  `compare_exchange` result convention (`Ok(previous)` on success).
* `get_sys_color` — presence-gated color fetching.
* `ThreadStep`/`Step` — an interleaving small-step semantics of several
  threads running `get_or_init` against one shared `AtomicU8` cell, for
  the concurrency claims.

Machine integers are modelled as `Nat`; `u8` casts are `% 2 ^ 8`.
A `none` result models a Rust panic.
-/

namespace WinSyscolor

/-- `struct SysColor(u32)`: an immutable wrapper around the packed color.
The `u32` payload is modelled as a `Nat`; every value the crate
constructs is below `2 ^ 32`. -/
structure SysColor where
  val : Nat
deriving DecidableEq

/-- `SysColor::new(color: u32)`. -/
def SysColor.new (color : Nat) : SysColor :=
  ⟨color⟩

/-- `SysColor::raw`: the raw packed value. -/
def SysColor.raw (c : SysColor) : Nat :=
  c.val

/-- `SysColor::red`: `(self.0 & 0xFF) as u8` (the `as u8` cast is `% 2 ^ 8`). -/
def SysColor.red (c : SysColor) : Nat :=
  (c.val &&& 0xFF) % 2 ^ 8

/-- `SysColor::green`: `((self.0 >> 8) & 0xFF) as u8`. -/
def SysColor.green (c : SysColor) : Nat :=
  ((c.val >>> 8) &&& 0xFF) % 2 ^ 8

/-- `SysColor::blue`: `((self.0 >> 16) & 0xFF) as u8`. -/
def SysColor.blue (c : SysColor) : Nat :=
  ((c.val >>> 16) &&& 0xFF) % 2 ^ 8

/-- One uppercase hexadecimal digit, for `0 ≤ n < 16`:
`'0'..'9'` then `'A'..'F'`. -/
def hexDigit (n : Nat) : Char :=
  if n < 10 then Char.ofNat (48 + n) else Char.ofNat (55 + n)

/-- Rust's `{:02X}` formatting of a byte: exactly two uppercase hex
digits, zero-padded (faithful for every input below `0x100`, which is
all the `Display` impl ever passes). -/
def hexByte (n : Nat) : String :=
  String.mk [hexDigit (n / 16), hexDigit (n % 16)]

/-- The `fmt::Display` impl:
`write!(f, "#{:02X}{:02X}{:02X}", self.red(), self.green(), self.blue())`. -/
def SysColor.display (c : SysColor) : String :=
  "#" ++ hexByte c.red ++ hexByte c.green ++ hexByte c.blue

/-- The derived `PartialOrd`/`Ord` on `SysColor(u32)` compares the single
`u32` field. -/
def SysColor.le (a b : SysColor) : Prop :=
  a.val ≤ b.val

instance (a b : SysColor) : Decidable (a.le b) :=
  inferInstanceAs (Decidable (a.val ≤ b.val))

/-- Is `ch` an uppercase hexadecimal digit (`0`-`9` or `A`-`F`)? -/
def isUpperHexDigit (ch : Char) : Bool :=
  (48 ≤ ch.toNat && ch.toNat ≤ 57) || (65 ≤ ch.toNat && ch.toNat ≤ 70)

theorem hexDigit_upperHex : ∀ d : Nat, d < 16 → isUpperHexDigit (hexDigit d) = true := by
  decide

theorem red_lt (c : SysColor) : c.red < 256 :=
  Nat.mod_lt _ (by decide)

theorem green_lt (c : SysColor) : c.green < 256 :=
  Nat.mod_lt _ (by decide)

theorem blue_lt (c : SysColor) : c.blue < 256 :=
  Nat.mod_lt _ (by decide)

theorem hexByte_len (b : Nat) : (hexByte b).length = 2 :=
  rfl

theorem hexByte_upperHex (b : Nat) (hb : b < 256) :
    ((hexByte b).data.all isUpperHexDigit) = true := by
  have h1 : isUpperHexDigit (hexDigit (b / 16)) = true :=
    hexDigit_upperHex _ (Nat.div_lt_of_lt_mul (by omega))
  have h2 : isUpperHexDigit (hexDigit (b % 16)) = true :=
    hexDigit_upperHex _ (Nat.mod_lt _ (by decide))
  simp [hexByte, h1, h2]

theorem sysColor_ext (a b : SysColor) : a = b ↔ a.val = b.val := by
  constructor
  · intro h; rw [h]
  · intro h; cases a; cases b; simp_all

theorem red_eq_and (c : SysColor) : c.red = c.val &&& 0xFF :=
  Nat.mod_eq_of_lt (Nat.lt_of_le_of_lt Nat.and_le_right (by decide))

theorem green_eq_and (c : SysColor) : c.green = (c.val >>> 8) &&& 0xFF :=
  Nat.mod_eq_of_lt (Nat.lt_of_le_of_lt Nat.and_le_right (by decide))

theorem blue_eq_and (c : SysColor) : c.blue = (c.val >>> 16) &&& 0xFF :=
  Nat.mod_eq_of_lt (Nat.lt_of_le_of_lt Nat.and_le_right (by decide))

theorem byte_recon (n : Nat) :
    (n &&& 0xFF) ||| (((n >>> 8) &&& 0xFF) <<< 8) ||| (((n >>> 16) &&& 0xFF) <<< 16)
      = n &&& 0xFFFFFF := by
  have h8 : (0xFF : Nat) = 2 ^ 8 - 1 := by norm_num
  have h24 : (0xFFFFFF : Nat) = 2 ^ 24 - 1 := by norm_num
  apply Nat.eq_of_testBit_eq
  intro i
  simp only [h8, h24, Nat.testBit_lor, Nat.testBit_and, Nat.testBit_shiftLeft,
    Nat.testBit_shiftRight, Nat.testBit_two_pow_sub_one]
  rcases Nat.lt_or_ge i 8 with h | h
  · simp [show i < 24 by omega, show ¬ 8 ≤ i by omega, show ¬ 16 ≤ i by omega]
    exact fun _ => h
  · rcases Nat.lt_or_ge i 16 with h2 | h2
    · have : 8 + (i - 8) = i := by omega
      simp [h, this, show i - 8 < 8 by omega, show ¬ i < 8 by omega,
        show ¬ 16 ≤ i by omega, show i < 24 by omega]
    · rcases Nat.lt_or_ge i 24 with h3 | h3
      · have e1 : 8 + (i - 8) = i := by omega
        have e2 : 16 + (i - 16) = i := by omega
        simp [e1, e2, show ¬ i < 8 by omega, show ¬ i - 8 < 8 by omega,
          show 8 ≤ i by omega, show 16 ≤ i by omega, show i - 16 < 8 by omega,
          show i < 24 by omega]
      · simp [show ¬ i < 8 by omega, show ¬ i - 8 < 8 by omega,
          show ¬ i - 16 < 8 by omega, show ¬ i < 24 by omega]

/-- Claim C5: for every `SysColor`, reconstructing a packed integer from its
extracted channels as `red | (green << 8) | (blue << 16)` equals the low
24 bits of its raw packed value (`raw & 0xFFFFFF`). -/
theorem claim_C5 (c : SysColor) :
    c.red ||| (c.green <<< 8) ||| (c.blue <<< 16) = c.raw &&& 0xFFFFFF := by
  rw [red_eq_and, green_eq_and, blue_eq_and]
  exact byte_recon c.val

/-- Claim C6: for every `SysColor` with raw packed value `v`, `red()` is the
lowest byte `v & 0xFF`, `green()` is `(v >> 8) & 0xFF`, `blue()` is
`(v >> 16) & 0xFF`, with no rounding or clamping (the `as u8` cast never
truncates); for `v = 0x00CCBBAA`, red is `0xAA`, green `0xBB`, blue `0xCC`. -/
theorem claim_C6 (c : SysColor) :
    c.red = c.raw &&& 0xFF
      ∧ c.green = (c.raw >>> 8) &&& 0xFF
      ∧ c.blue = (c.raw >>> 16) &&& 0xFF
      ∧ (SysColor.new 0x00CCBBAA).red = 0xAA
      ∧ (SysColor.new 0x00CCBBAA).green = 0xBB
      ∧ (SysColor.new 0x00CCBBAA).blue = 0xCC :=
  ⟨red_eq_and c, green_eq_and c, blue_eq_and c, by decide, by decide, by decide⟩

/-- Claim C7: the display string of every `SysColor` is `#` followed by the
red, green and blue channels in that order, each rendered as exactly two
uppercase hexadecimal digits; a `SysColor` with raw value `0x00CCBBAA`
displays as `"#AABBCC"`. -/
theorem claim_C7 (c : SysColor) :
    c.display = "#" ++ hexByte c.red ++ hexByte c.green ++ hexByte c.blue
      ∧ (hexByte c.red).length = 2
      ∧ (hexByte c.green).length = 2
      ∧ (hexByte c.blue).length = 2
      ∧ ((hexByte c.red).data.all isUpperHexDigit) = true
      ∧ ((hexByte c.green).data.all isUpperHexDigit) = true
      ∧ ((hexByte c.blue).data.all isUpperHexDigit) = true
      ∧ (SysColor.new 0x00CCBBAA).display = "#AABBCC" :=
  ⟨rfl, rfl, rfl, rfl, hexByte_upperHex _ (red_lt c), hexByte_upperHex _ (green_lt c),
    hexByte_upperHex _ (blue_lt c), by decide⟩

/-- Claim C8: two `SysColor` values are equal iff their raw packed values are
equal, and the derived ordering is a total order that agrees with the
integer ordering of the raw packed values. -/
theorem claim_C8 (a b c : SysColor) :
    (a = b ↔ a.raw = b.raw)
      ∧ (a.le b ↔ a.raw ≤ b.raw)
      ∧ a.le a
      ∧ (a.le b → b.le a → a = b)
      ∧ (a.le b ∨ b.le a)
      ∧ (a.le b → b.le c → a.le c) := by
  refine ⟨sysColor_ext a b, Iff.rfl, Nat.le_refl _, ?_, ?_, ?_⟩
  · intro h1 h2
    exact (sysColor_ext a b).mpr (Nat.le_antisymm h1 h2)
  · exact Nat.le_total a.val b.val
  · exact fun h1 h2 => Nat.le_trans h1 h2

/-- Witness for C8 at concrete colors: its antisymmetry and transitivity
hypotheses are discharged at `SysColor.new 3`, `SysColor.new 3`,
`SysColor.new 7`. -/
theorem claim_C8_witness :
    SysColor.new 3 = SysColor.new 3 ∧ (SysColor.new 3).le (SysColor.new 7) := by
  have h := claim_C8 (SysColor.new 3) (SysColor.new 3) (SysColor.new 7)
  exact ⟨h.2.2.2.1 (by decide) (by decide), h.2.2.2.2.2 (by decide) (by decide)⟩

/-- `const UNINIT: u8 = 0xFF` — the initial `AtomicU8` contents of a
`OnceBool`. -/
def UNINIT : Nat := 0xFF

/-- `const FALSE: u8 = 0`. -/
def FALSE : Nat := 0

/-- `const TRUE: u8 = 1`. -/
def TRUE : Nat := 1

/-- Rust's `b as u8` for a `bool`. -/
def boolToU8 (b : Bool) : Nat :=
  if b then 1 else 0

/-- Outcome of one sequential call to `OnceBool::get_or_init`:
`result` is `some b` for a normal return of `b` and `none` for a panic;
`cell` is the final `AtomicU8` contents; `probes` counts invocations of
the probe closure `f`; `takes` counts executions of `closure.take()`. -/
structure GoiOutcome where
  result : Option Bool
  cell : Nat
  probes : Nat
  takes : Nat
deriving DecidableEq

/-- The `loop` body of `OnceBool::get_or_init` re-entered after the closure
`Option` has already been emptied by `closure.take()` (which the
sequential first pass always does).  Matching the Rust `loop`:
`TRUE`/`FALSE` return; otherwise `closure.take()` runs once more, yields
`None`, and `.unwrap()` panics — so this pass never reaches the
`compare_exchange`. -/
def getOrInitResume (cell value probes takes : Nat) : GoiOutcome :=
  if value = TRUE then ⟨some true, cell, probes, takes⟩
  else if value = FALSE then ⟨some false, cell, probes, takes⟩
  else ⟨none, cell, probes, takes + 1⟩

/-- Sequential `OnceBool::get_or_init(f)` where the probe closure `f`
returns `probe`.  First pass of the `loop`: `value` is the `Acquire`
load of the cell; `TRUE`/`FALSE` return at once.  Otherwise
`closure.take().unwrap()()` runs the probe (one take, one probe) and
`compare_exchange(value, new_value, AcqRel, Acquire)` executes: with no
other thread, the cell still equals `value`, so the exchange succeeds,
stores `new_value`, and — per `compare_exchange`'s contract — returns
`Ok(previous)`, i.e. the old `value`, which `unwrap_or_else(|x| x)`
passes on; the loop then continues with the closure gone
(`getOrInitResume`).  The dead failure branch is kept for fidelity. -/
def getOrInit (cell : Nat) (probe : Bool) : GoiOutcome :=
  let value := cell
  if value = TRUE then ⟨some true, cell, 0, 0⟩
  else if value = FALSE then ⟨some false, cell, 0, 0⟩
  else
    let newValue := boolToU8 probe
    if cell = value then getOrInitResume newValue value 1 1
    else getOrInitResume cell cell 1 1

theorem getOrInit_eq (cell : Nat) (probe : Bool) :
    getOrInit cell probe =
      if cell = TRUE then ⟨some true, cell, 0, 0⟩
      else if cell = FALSE then ⟨some false, cell, 0, 0⟩
      else ⟨none, boolToU8 probe, 1, 2⟩ := by
  by_cases h1 : cell = TRUE
  · simp [getOrInit, h1]
  · by_cases h2 : cell = FALSE
    · simp [getOrInit, h1, h2]
    · simp [getOrInit, getOrInitResume, h1, h2]

/-- Outcome of one sequential call to `get_sys_color`: `result` is `none`
for a panic, `some none` for `None` ("not available"), `some (some v)`
for `Some(v)`; `fetches` counts invocations of `GetSysColor`. -/
structure GscOutcome where
  result : Option (Option Nat)
  cell : Nat
  probes : Nat
  fetches : Nat
deriving DecidableEq

/-- `get_sys_color(index, present)`: runs
`present.get_or_init(|| GetSysColorBrush(index) != 0)` — the probe result
is modelled by `brushExists` — then, only when that returns `true`, calls
`GetSysColor(index)`, whose live return value is modelled by
`colorValue`.  A panic in `get_or_init` propagates. -/
def get_sys_color (cell : Nat) (brushExists : Bool) (colorValue : Nat) : GscOutcome :=
  let g := getOrInit cell brushExists
  match g.result with
  | none => ⟨none, g.cell, g.probes, 0⟩
  | some present =>
    if !present then ⟨some none, g.cell, g.probes, 0⟩
    else ⟨some (some colorValue), g.cell, g.probes, 1⟩

/-- Outcome of one sequential call to `SysColor::get` for one index. -/
structure SysGetOutcome where
  result : Option (Option SysColor)
  cell : Nat
  probes : Nat
  fetches : Nat
deriving DecidableEq

/-- `SysColor::get(index)` for an index whose `static PRESENT: OnceBool`
cell currently holds `cell`: `get_sys_color(native_index, &PRESENT)
.map(SysColor::new)`. -/
def sysColorGet (cell : Nat) (brushExists : Bool) (colorValue : Nat) : SysGetOutcome :=
  let g := get_sys_color cell brushExists colorValue
  ⟨g.result.map (fun r => r.map SysColor.new), g.cell, g.probes, g.fetches⟩

/-- Claim C1 fails on the code: on an `Uninitialized` cache the probe is
invoked once and its result `b` is stored as the permanent cached value,
but the call then panics (`result = none`) instead of returning `b`: the
successful `compare_exchange` returns the previous value `UNINIT`, the
loop repeats, and `closure.take().unwrap()` unwraps `None`. -/
theorem claim_C1 (probe : Bool) :
    getOrInit UNINIT probe = ⟨none, boolToU8 probe, 1, 2⟩ := by
  simp [getOrInit_eq, UNINIT, TRUE, FALSE]

/-- Witness for C1 at `probe = true`: the first call caches `TRUE` yet
panics. -/
theorem claim_C1_witness :
    getOrInit UNINIT true = ⟨none, boolToU8 true, 1, 2⟩ :=
  claim_C1 true

/-- Claim C3 fails on the code on the first call: with the cache
`Uninitialized` and a probe returning `false`, `SysColor::get` panics
(`result = none`) instead of returning `None`, though it does store
`FALSE` and never calls `GetSysColor`; on every later call (cache
`FALSE`) it returns `None` without probing or fetching. -/
theorem claim_C3 (v : Nat) :
    sysColorGet UNINIT false v = ⟨none, FALSE, 1, 0⟩
      ∧ sysColorGet FALSE false v = ⟨some none, FALSE, 0, 0⟩ := by
  constructor <;> simp [sysColorGet, get_sys_color, getOrInit_eq, UNINIT, TRUE, FALSE, boolToU8]

/-- Claim C4: once presence is established as `TRUE`, every call to
`SysColor::get` invokes `GetSysColor` afresh (`fetches = 1` on each
call) and returns `Some(SysColor(v))` for `v` the value returned by that
very call — the color value is not cached, so calls seeing different
live values return different colors. -/
theorem claim_C4 (brushExists : Bool) (v w : Nat) :
    sysColorGet TRUE brushExists v
        = ⟨some (some (SysColor.new v)), TRUE, 0, 1⟩
      ∧ (v ≠ w →
          sysColorGet TRUE brushExists v ≠ sysColorGet TRUE brushExists w) := by
  have h : ∀ u : Nat, sysColorGet TRUE brushExists u
      = ⟨some (some (SysColor.new u)), TRUE, 0, 1⟩ := by
    intro u
    simp [sysColorGet, get_sys_color, getOrInit_eq, TRUE, FALSE]
  refine ⟨h v, fun hvw hc => hvw ?_⟩
  rw [h v, h w] at hc
  simpa [SysColor.new, sysColor_ext] using hc

/-- Witness for C4 at two distinct live values `5` and `6`. -/
theorem claim_C4_witness :
    sysColorGet TRUE true 5 = ⟨some (some (SysColor.new 5)), TRUE, 0, 1⟩
      ∧ sysColorGet TRUE true 5 ≠ sysColorGet TRUE true 6 :=
  ⟨(claim_C4 true 5 6).1, (claim_C4 true 5 6).2 (by decide)⟩

/-- Claim C10 fails on the code: a single `get_or_init` call on an
`Uninitialized` cache performs `closure.take()` twice — the second take
yields `None` and its `.unwrap()` panics (`result = none`). -/
theorem claim_C10 :
    (getOrInit UNINIT true).takes = 2 ∧ (getOrInit UNINIT true).result = none
      ∧ (getOrInit UNINIT false).takes = 2
      ∧ (getOrInit UNINIT false).result = none := by
  decide

/-- Local state of one thread inside `OnceBool::get_or_init`:
`start` — about to perform the initial `Acquire` load;
`check value closureAvail` — at the top of the `loop` with local variable
`value` and the closure `Option` still full (`closureAvail = true`) or
already emptied by `closure.take()`;
`ready value newValue` — the probe has run, `new_value` is computed, the
`compare_exchange` is next;
`done b` — returned `b`; `panicked` — `unwrap()` of the emptied `Option`. -/
inductive TState where
  | start
  | check (value : Nat) (closureAvail : Bool)
  | ready (value newValue : Nat)
  | done (b : Bool)
  | panicked
deriving DecidableEq

/-- Shared-memory configuration: the `AtomicU8` cell of one `OnceBool`,
the local states of the threads calling `get_or_init` on it, and a
counter of probe-closure invocations across all threads. -/
structure Config where
  cell : Nat
  threads : List TState
  probes : Nat
deriving DecidableEq

/-- One atomic step of one thread against the shared cell:
`ThreadStep cell s cell' s' d` — with the cell holding `cell` and the
thread in state `s`, the thread moves to `s'`, the cell becomes `cell'`,
and `d` probe invocations happen.  `casSuccess` requires the cell to
equal the expected `value`, stores `newValue`, and hands the thread back
the previous value `value` (the `Ok(previous)` of `compare_exchange`,
passed through `unwrap_or_else(|x| x)`); `casFail` requires them to
differ and hands back the current cell value. -/
inductive ThreadStep : Nat → TState → Nat → TState → Nat → Prop where
  | load (cell : Nat) :
      ThreadStep cell .start cell (.check cell true) 0
  | seesTrue (cell : Nat) (a : Bool) :
      ThreadStep cell (.check TRUE a) cell (.done true) 0
  | seesFalse (cell : Nat) (a : Bool) :
      ThreadStep cell (.check FALSE a) cell (.done false) 0
  | probeRun (cell v : Nat) (b : Bool) (h1 : v ≠ TRUE) (h2 : v ≠ FALSE) :
      ThreadStep cell (.check v true) cell (.ready v (boolToU8 b)) 1
  | unwrapPanic (cell v : Nat) (h1 : v ≠ TRUE) (h2 : v ≠ FALSE) :
      ThreadStep cell (.check v false) cell .panicked 0
  | casSuccess (v nv : Nat) :
      ThreadStep v (.ready v nv) nv (.check v false) 0
  | casFail (cell v nv : Nat) (h : cell ≠ v) :
      ThreadStep cell (.ready v nv) cell (.check cell false) 0

/-- Interleaving semantics: some thread `i` takes one `ThreadStep`. -/
inductive Step : Config → Config → Prop where
  | thread (c : Config) (i : Nat) (hi : i < c.threads.length) (cell' : Nat)
      (s' : TState) (d : Nat)
      (h : ThreadStep c.cell (c.threads.get ⟨i, hi⟩) cell' s' d) :
      Step c ⟨cell', c.threads.set i s', c.probes + d⟩

/-- `n` threads about to call `get_or_init` on a fresh
(`UNINIT`-initialised) `OnceBool`. -/
def initConfig (n : Nat) : Config :=
  ⟨UNINIT, List.replicate n .start, 0⟩

/-- Reflexive-transitive closure of `Step`. -/
def Reachable : Config → Config → Prop :=
  Relation.ReflTransGen Step

/-- Per-thread invariant relative to the current cell contents: a local
`value` that is terminal was the cell's value when observed, and the
cell never changes afterwards; a thread about to `compare_exchange`
expects a non-terminal value and stores a terminal one; a finished
thread returned exactly the cell's (terminal) value. -/
def tsInv (cell : Nat) : TState → Prop
  | .check v _ => (v = FALSE ∨ v = TRUE) → cell = v
  | .ready v nv => v ≠ FALSE ∧ v ≠ TRUE ∧ (nv = FALSE ∨ nv = TRUE)
  | .done b => cell = boolToU8 b
  | _ => True

/-- Global invariant: the cell holds `UNINIT`, `FALSE` or `TRUE`, and
every thread satisfies `tsInv`. -/
def ConfigInv (c : Config) : Prop :=
  (c.cell = UNINIT ∨ c.cell = FALSE ∨ c.cell = TRUE)
    ∧ ∀ s ∈ c.threads, tsInv c.cell s

theorem inv_init (n : Nat) : ConfigInv (initConfig n) := by
  refine ⟨Or.inl rfl, fun s hs => ?_⟩
  rw [List.eq_of_mem_replicate hs]
  trivial

theorem inv_step {c c' : Config} (h : ConfigInv c) (hs : Step c c') : ConfigInv c' := by
  obtain ⟨hcell, hthreads⟩ := h
  cases hs with
  | thread i hi cell' s' d hts =>
    have hself : tsInv c.cell (c.threads.get ⟨i, hi⟩) :=
      hthreads _ (List.get_mem c.threads i hi)
    generalize hgen : c.threads.get ⟨i, hi⟩ = s0 at hts hself
    generalize hcl : c.cell = cl at hts hself hcell hthreads
    cases hts with
    | load =>
      refine ⟨hcell, fun s hmem => ?_⟩
      rcases List.mem_or_eq_of_mem_set hmem with hold | rfl
      · exact hthreads s hold
      · exact fun _ => rfl
    | seesTrue a =>
      have hc := hself (Or.inr rfl)
      refine ⟨hcell, fun s hmem => ?_⟩
      rcases List.mem_or_eq_of_mem_set hmem with hold | rfl
      · exact hthreads s hold
      · exact hc
    | seesFalse a =>
      have hc := hself (Or.inl rfl)
      refine ⟨hcell, fun s hmem => ?_⟩
      rcases List.mem_or_eq_of_mem_set hmem with hold | rfl
      · exact hthreads s hold
      · exact hc
    | probeRun v b h1 h2 =>
      refine ⟨hcell, fun s hmem => ?_⟩
      rcases List.mem_or_eq_of_mem_set hmem with hold | rfl
      · exact hthreads s hold
      · refine ⟨h2, h1, ?_⟩
        rcases b
        · exact Or.inl rfl
        · exact Or.inr rfl
    | unwrapPanic v h1 h2 =>
      refine ⟨hcell, fun s hmem => ?_⟩
      rcases List.mem_or_eq_of_mem_set hmem with hold | rfl
      · exact hthreads s hold
      · trivial
    | casSuccess =>
      obtain ⟨hv0, hv1, hnv⟩ := hself
      refine ⟨?_, fun s hmem => ?_⟩
      · rcases hnv with h | h
        · exact Or.inr (Or.inl h)
        · exact Or.inr (Or.inr h)
      · rcases List.mem_or_eq_of_mem_set hmem with hold | rfl
        · have hold2 := hthreads s hold
          cases s with
          | check w a =>
            intro hw
            exfalso
            rcases hw with hw | hw <;> rw [hw] at hold2
            · exact hv0 (hold2 (Or.inl rfl))
            · exact hv1 (hold2 (Or.inr rfl))
          | ready w nw => exact hold2
          | done b =>
            exfalso
            rcases b
            · exact hv0 hold2
            · exact hv1 hold2
          | start => trivial
          | panicked => trivial
        · intro hw
          rcases hw with hw | hw
          · exact absurd hw hv0
          · exact absurd hw hv1
    | casFail nv hne =>
      refine ⟨hcell, fun s hmem => ?_⟩
      rcases List.mem_or_eq_of_mem_set hmem with hold | rfl
      · exact hthreads s hold
      · exact fun _ => rfl

theorem inv_reach {c c' : Config} (h : ConfigInv c) (hr : Reachable c c') : ConfigInv c' := by
  induction hr with
  | refl => exact h
  | tail _ hstep ih => exact inv_step ih hstep

theorem step_cell_shape {c c' : Config} (h : ConfigInv c) (hs : Step c c') :
    c'.cell = c.cell ∨ (c.cell = UNINIT ∧ (c'.cell = FALSE ∨ c'.cell = TRUE)) := by
  obtain ⟨hcell, hthreads⟩ := h
  cases hs with
  | thread i hi cell' s' d hts =>
    have hself : tsInv c.cell (c.threads.get ⟨i, hi⟩) :=
      hthreads _ (List.get_mem c.threads i hi)
    generalize hgen : c.threads.get ⟨i, hi⟩ = s0 at hts hself
    generalize hcl : c.cell = cl at hts hself hcell hthreads
    cases hts with
    | load => exact Or.inl rfl
    | seesTrue a => exact Or.inl rfl
    | seesFalse a => exact Or.inl rfl
    | probeRun v b h1 h2 => exact Or.inl rfl
    | unwrapPanic v h1 h2 => exact Or.inl rfl
    | casSuccess =>
      obtain ⟨hv0, hv1, hnv⟩ := hself
      refine Or.inr ⟨?_, hnv⟩
      rcases hcell with h | h | h
      · exact h
      · exact absurd h hv0
      · exact absurd h hv1
    | casFail nv hne => exact Or.inl rfl

theorem done_agree {c : Config} (h : ConfigInv c) {i j : Nat}
    (hi : i < c.threads.length) (hj : j < c.threads.length) {bi bj : Bool}
    (hdi : c.threads.get ⟨i, hi⟩ = .done bi) (hdj : c.threads.get ⟨j, hj⟩ = .done bj) :
    bi = bj := by
  obtain ⟨hcell, hthreads⟩ := h
  have h1 : tsInv c.cell (TState.done bi) := by
    rw [← hdi]; exact hthreads _ (List.get_mem c.threads i hi)
  have h2 : tsInv c.cell (TState.done bj) := by
    rw [← hdj]; exact hthreads _ (List.get_mem c.threads j hj)
  have : boolToU8 bi = boolToU8 bj := by
    have e1 : c.cell = boolToU8 bi := h1
    have e2 : c.cell = boolToU8 bj := h2
    omega
  rcases bi <;> rcases bj <;> simp_all [boolToU8]

-- concrete traces
/-- An explicit two-thread interleaving in which both threads load
`UNINIT` and both invoke the probe before either `compare_exchange`. -/
theorem two_probes_trace :
    ∃ c : Config, Reachable (initConfig 2) c ∧ 2 ≤ c.probes := by
  refine ⟨⟨UNINIT, [.ready UNINIT 1, .ready UNINIT 0], 2⟩, ?_, by decide⟩
  have s1 : Step (initConfig 2) ⟨UNINIT, [.check UNINIT true, .start], 0⟩ :=
    Step.thread _ 0 (by decide) _ _ _ (ThreadStep.load _)
  have s2 : Step ⟨UNINIT, [.check UNINIT true, .start], 0⟩
      ⟨UNINIT, [.check UNINIT true, .check UNINIT true], 0⟩ :=
    Step.thread _ 1 (by decide) _ _ _ (ThreadStep.load _)
  have s3 : Step ⟨UNINIT, [.check UNINIT true, .check UNINIT true], 0⟩
      ⟨UNINIT, [.ready UNINIT 1, .check UNINIT true], 1⟩ :=
    Step.thread _ 0 (by decide) _ _ _ (ThreadStep.probeRun _ _ true (by decide) (by decide))
  have s4 : Step ⟨UNINIT, [.ready UNINIT 1, .check UNINIT true], 1⟩
      ⟨UNINIT, [.ready UNINIT 1, .ready UNINIT 0], 2⟩ :=
    Step.thread _ 1 (by decide) _ _ _ (ThreadStep.probeRun _ _ false (by decide) (by decide))
  exact Relation.ReflTransGen.tail
    (Relation.ReflTransGen.tail
      (Relation.ReflTransGen.tail (Relation.ReflTransGen.single s1) s2) s3) s4

/-- An explicit three-thread interleaving: thread 0 probes `true` and wins
the `compare_exchange` (heading for the panic), threads 1 and 2 then
load the terminal cell and complete with `true`. -/
theorem two_done_trace :
    Reachable (initConfig 3) ⟨TRUE, [.check UNINIT false, .done true, .done true], 1⟩ := by
  have s1 : Step (initConfig 3) ⟨UNINIT, [.check UNINIT true, .start, .start], 0⟩ :=
    Step.thread _ 0 (by decide) _ _ _ (ThreadStep.load _)
  have s2 : Step ⟨UNINIT, [.check UNINIT true, .start, .start], 0⟩
      ⟨UNINIT, [.ready UNINIT 1, .start, .start], 1⟩ :=
    Step.thread _ 0 (by decide) _ _ _ (ThreadStep.probeRun _ _ true (by decide) (by decide))
  have s3 : Step ⟨UNINIT, [.ready UNINIT 1, .start, .start], 1⟩
      ⟨TRUE, [.check UNINIT false, .start, .start], 1⟩ :=
    Step.thread _ 0 (by decide) _ _ _ (ThreadStep.casSuccess _ _)
  have s4 : Step ⟨TRUE, [.check UNINIT false, .start, .start], 1⟩
      ⟨TRUE, [.check UNINIT false, .check TRUE true, .start], 1⟩ :=
    Step.thread _ 1 (by decide) _ _ _ (ThreadStep.load _)
  have s5 : Step ⟨TRUE, [.check UNINIT false, .check TRUE true, .start], 1⟩
      ⟨TRUE, [.check UNINIT false, .done true, .start], 1⟩ :=
    Step.thread _ 1 (by decide) _ _ _ (ThreadStep.seesTrue _ _)
  have s6 : Step ⟨TRUE, [.check UNINIT false, .done true, .start], 1⟩
      ⟨TRUE, [.check UNINIT false, .done true, .check TRUE true], 1⟩ :=
    Step.thread _ 2 (by decide) _ _ _ (ThreadStep.load _)
  have s7 : Step ⟨TRUE, [.check UNINIT false, .done true, .check TRUE true], 1⟩
      ⟨TRUE, [.check UNINIT false, .done true, .done true], 1⟩ :=
    Step.thread _ 2 (by decide) _ _ _ (ThreadStep.seesTrue _ _)
  exact .tail (.tail (.tail (.tail (.tail (.tail (.single s1) s2) s3) s4) s5) s6) s7

/-- Claim C2: the presence cache is monotone and converges — a step of any
thread either leaves the cell unchanged or moves it `UNINIT → FALSE` or
`UNINIT → TRUE`; a terminal cell is never changed by any step; and a
sequential `get_or_init` call on a terminal cell returns the cached value
with no probe invocation and no state change. -/
theorem claim_C2 (n : Nat) (c c' : Config)
    (hr : Reachable (initConfig n) c) (hs : Step c c') :
    (c'.cell = c.cell ∨ (c.cell = UNINIT ∧ (c'.cell = FALSE ∨ c'.cell = TRUE)))
      ∧ ((c.cell = FALSE ∨ c.cell = TRUE) → c'.cell = c.cell)
      ∧ ∀ p : Bool,
          getOrInit FALSE p = ⟨some false, FALSE, 0, 0⟩
            ∧ getOrInit TRUE p = ⟨some true, TRUE, 0, 0⟩ := by
  have hinv := inv_reach (inv_init n) hr
  have hshape := step_cell_shape hinv hs
  refine ⟨hshape, ?_, ?_⟩
  · intro ht
    rcases hshape with h | ⟨h255, _⟩
    · exact h
    · rcases ht with ht | ht <;> rw [ht] at h255 <;> exact absurd h255 (by decide)
  · intro p
    constructor <;> simp [getOrInit_eq, TRUE, FALSE]

/-- Witness for C2: its reachability and step hypotheses are discharged at
the one-thread initial configuration and its load step. -/
theorem claim_C2_witness :
    getOrInit FALSE true = ⟨some false, FALSE, 0, 0⟩
      ∧ getOrInit TRUE true = ⟨some true, TRUE, 0, 0⟩ := by
  have h := claim_C2 1 (initConfig 1) ⟨UNINIT, [TState.check UNINIT true], 0⟩
    Relation.ReflTransGen.refl (Step.thread _ 0 (by decide) _ _ _ (ThreadStep.load _))
  exact h.2.2 true

/-- Claim C9: with several threads running `get_or_init` concurrently on a
fresh cache, the probe may be invoked more than once (an explicit
two-thread interleaving reaches two probe invocations), yet any two
callers that complete their calls observe the same final boolean. -/
theorem claim_C9 :
    (∃ c : Config, Reachable (initConfig 2) c ∧ 2 ≤ c.probes)
      ∧ ∀ (n : Nat) (c : Config), Reachable (initConfig n) c →
          ∀ (i j : Nat) (hi : i < c.threads.length) (hj : j < c.threads.length)
            (bi bj : Bool), c.threads.get ⟨i, hi⟩ = .done bi →
            c.threads.get ⟨j, hj⟩ = .done bj → bi = bj := by
  refine ⟨two_probes_trace, fun n c hr i j hi hj bi bj hdi hdj => ?_⟩
  exact done_agree (inv_reach (inv_init n) hr) hi hj hdi hdj

/-- Witness for C9: its agreement part applied to an explicit reachable
three-thread configuration in which two threads have completed. -/
theorem claim_C9_witness : true = true :=
  claim_C9.2 3 ⟨TRUE, [.check UNINIT false, .done true, .done true], 1⟩
    two_done_trace 1 2 (by decide) (by decide) true true rfl rfl

end WinSyscolor
